import Mathlib

/-!
Shallow embedding of bayespy/inference/vmp/vmp.py (class VB), the
variational-message-passing convergence loop.

Modelling decisions, in order of appearance in the source:

* A node is external to the loop; the loop only calls node.update()
  (optional capability), node.lower_bound_contribution(), reads node.name,
  and uses object identity (modelled by an id field).  The behaviour of a
  node over one execution is captured by oracles indexed by the value of
  the iteration counter of the loop at call time (each of update and
  lower_bound_contribution is invoked at most once per round):
  updateFails it and contribFails it say whether the call raises at round
  it, and contrib it is the float that lower_bound_contribution() returns
  there.
* Python floats are modelled as exact rationals; the NaN sentinel slots
  created by utils.utils.nans are modelled by Option with none for NaN.
  Comparisons against a NaN previous bound are False in Python, which the
  match on the Option below reproduces.
* Raised exceptions are modelled with Except; for VB.update the error
  payload is the VB state at the moment the exception propagates, so that
  post-failure state can be inspected.
* print, warnings.warn and the autosave write are side effects; they are
  modelled as an event trace (VEvent) returned by update, the autosave
  event carrying the Checkpoint that save writes.
-/

namespace BayesPy

/-- A model node, as seen by the VB loop (external capability provider).
The id field stands for Python object identity, hasUpdate for the check
hasattr(node, update) and callable(node.update). -/
structure VNode where
  id : Nat
  name : String
  hasUpdate : Bool
  updateFails : Nat → Bool
  contribFails : Nat → Bool
  contrib : Nat → ℚ

/-- Helper for `unique`: drop nodes whose identity was already seen. -/
def uniqueGo (seen : List Nat) : List VNode → List VNode
  | [] => []
  | n :: ns => if n.id ∈ seen then uniqueGo seen ns else n :: uniqueGo (n.id :: seen) ns

/-- Modelled from the spec: `utils.utils.unique` is not under src/; the
spec says construction must "deduplicate nodes preserving first-seen
order" (an ordered, deduplicated set of node references), so `unique`
removes later duplicates (by object identity) keeping first occurrences. -/
def unique (ns : List VNode) : List VNode := uniqueGo [] ns

/-- Exceptions raised by VB itself (all are plain raise Exception(...) in
the source; the taxonomy of the spec names them ConfigurationError). -/
inductive VBError where
  /-- Message: Use unique names for nodes. (constructor check). -/
  | uniqueNames
  /-- Message: Filename must be given. (save/load with no usable path). -/
  | filenameMustBeGiven
  /-- Message: In order to save nodes, they must have (unique) names. -/
  | emptyNameSave
  deriving DecidableEq

/-- State of a VB instance.  The field l is the per-node bound series,
stored positionally in parallel with model (the Python dict is keyed by
the nodes of the model). -/
structure VB where
  model : List VNode
  iter : Nat
  L : List (Option ℚ)
  l : List (List (Option ℚ))
  autosave_iterations : Nat
  autosave_filename : String
  filename : Option String

/-- Python truthiness of an optional string: None and the empty string
are falsy. -/
def pyFalsy : Option String → Bool
  | none => true
  | some s => s.isEmpty

/-- Embedding of VB.__init__.  The tmpname argument stands for the name
the OS gives the tempfile.NamedTemporaryFile used when no autosave
filename is passed.  The final name-uniqueness check is transcribed
literally from the source: it compares len(names) with len(self.model)
where names is the list comprehension of node.name over self.model. -/
def VB.init (nodes : List VNode) (autosave_iterations : Nat)
    (autosave_filename : Option String) (tmpname : String) : Except VBError VB :=
  let model := unique nodes
  let vb : VB :=
    { model := model
      iter := 0
      L := []
      l := model.map fun _ => []
      autosave_iterations := autosave_iterations
      autosave_filename :=
        if pyFalsy autosave_filename then tmpname else autosave_filename.getD ""
      filename := if pyFalsy autosave_filename then none else autosave_filename }
  let names := model.map (·.name)
  if names.length ≠ model.length then .error .uniqueNames else .ok vb

/-- Data that VB.save writes into the HDF5 file: the L dataset, the iter
dataset and the boundterms group (node name mapped to series).  The
per-node state sub-groups under the nodes group are opaque to the loop
and not modelled. -/
structure Checkpoint where
  savedL : List (Option ℚ)
  savedIter : Nat
  savedBoundterms : List (String × List (Option ℚ))
  deriving DecidableEq

/-- Default-filename resolution block shared verbatim by VB.save and
VB.load: if the argument is falsy, fall back to self.filename when that
is truthy, otherwise raise. -/
def resolveFilename (filename selfFilename : Option String) : Except VBError String :=
  if pyFalsy filename then
    if pyFalsy selfFilename then .error .filenameMustBeGiven
    else .ok (selfFilename.getD "")
  else .ok (filename.getD "")

/-- Embedding of VB.save: resolve the target path, fail if any node has
an empty name, otherwise write L, iter and the per-node bound series
(keyed by node name, in model order).  Returns the path used and the
checkpoint contents. -/
def VB.save (vb : VB) (filename : Option String) : Except VBError (String × Checkpoint) :=
  match resolveFilename filename vb.filename with
  | .error e => .error e
  | .ok fn =>
    if vb.model.any (fun n => n.name == "") then .error .emptyNameSave
    else .ok (fn, ⟨vb.L, vb.iter, (vb.model.zip vb.l).map fun p => (p.1.name, p.2)⟩)

/-- Default-filename resolution of VB.load (the block is identical to the
one in VB.save); the rest of load restores external node state and
overwrites the ledger from the file. -/
def VB.load_filename (vb : VB) (filename : Option String) : Except VBError String :=
  resolveFilename filename vb.filename

/-- Observable side effects of one update call. -/
inductive VEvent where
  /-- Call to warnings.warn about a lower-bound decrease, with the
  decrease amount. -/
  | warned (diff : ℚ)
  /-- Printed the Converged message. -/
  | converged
  /-- Call to self.save(self.autosave_filename) succeeded; carries the
  path and the checkpoint written. -/
  | autosaved (fn : String) (cp : Checkpoint)
  deriving DecidableEq

/-- Node-update phase of one round: for each target node with an update
capability, invoke it; an exception propagates immediately. -/
def runUpdates (it : Nat) : List VNode → Except Unit Unit
  | [] => .ok ()
  | n :: ns =>
    if n.hasUpdate && n.updateFails it then .error () else runUpdates it ns

/-- Body of VB.loglikelihood_lowerbound: walk the model (in parallel with
the per-node series), write each contribution into slot it of the series
of that node, and accumulate the sum.  Returns the updated series and
some total, or none if a lower_bound_contribution() call raised (the
writes made before the raise are kept, as in the source). -/
def llbGo (it : Nat) (acc : ℚ) :
    List VNode → List (List (Option ℚ)) → List (List (Option ℚ)) × Option ℚ
  | [], ls => (ls, some acc)
  | _ :: _, [] => ([], none)
  | n :: ns, s :: ss =>
    if n.contribFails it then (s :: ss, none)
    else
      let lp := n.contrib it
      let out := llbGo it (acc + lp) ns ss
      (s.set it (some lp) :: out.1, out.2)

/-- Embedding of VB.loglikelihood_lowerbound: sums the contributions over
the whole model, recording each per-node value at slot self.iter. -/
def loglikelihood_lowerbound (vb : VB) : VB × Option ℚ :=
  let out := llbGo vb.iter 0 vb.model vb.l
  ({ vb with l := out.1 }, out.2)

/-- Bound-decrease warning threshold, 1e-6 in the source. -/
def eps_warn : ℚ := 1 / 1000000

/-- Convergence threshold, 1e-12 in the source. -/
def eps_conv : ℚ := 1 / 1000000000000

/-- One iteration of the repeat loop body of VB.update: run node updates,
recompute the bound, emit the regression warning and/or the convergence
message, autosave if the cadence divides the 1-based iteration number,
then commit the bound into L at index iter and advance iter.  On an
exception the error payload is the state at that moment. -/
def updateRound (targets : List VNode) (vb : VB) : Except VB (VB × List VEvent) :=
  match runUpdates vb.iter targets with
  | .error _ => .error vb
  | .ok _ =>
    match loglikelihood_lowerbound vb with
    | (vb1, none) => .error vb1
    | (vb1, some Lval) =>
      let progress : List VEvent :=
        if 0 < vb1.iter then
          match vb1.L.getD (vb1.iter - 1) none with
          | some prev =>
            (if eps_warn < prev - Lval then [.warned (prev - Lval)] else []) ++
            (if Lval - prev < eps_conv then [.converged] else [])
          | none => []
        else []
      let finish : VB :=
        { vb1 with L := vb1.L.set vb1.iter (some Lval), iter := vb1.iter + 1 }
      if 0 < vb1.autosave_iterations ∧ (vb1.iter + 1) % vb1.autosave_iterations = 0 then
        match vb1.save (some vb1.autosave_filename) with
        | .error _ => .error vb1
        | .ok (fn, cp) => .ok (finish, progress ++ [.autosaved fn cp])
      else .ok (finish, progress)

/-- Iterated loop of VB.update, accumulating the event trace. -/
def updateGo (targets : List VNode) : Nat → VB → Except VB (VB × List VEvent)
  | 0, vb => .ok (vb, [])
  | k + 1, vb =>
    match updateRound targets vb with
    | .error v => .error v
    | .ok (vb1, e1) =>
      match updateGo targets k vb1 with
      | .error v => .error v
      | .ok (vb2, e2) => .ok (vb2, e1 ++ e2)

/-- Embedding of VB.update(*nodes, repeat=rep): pre-extend L and every
per-node series by rep NaN slots, default the target set to the whole
model, then run rep rounds. -/
def VB.update (vb : VB) (nodes : List VNode) (rep : Nat) : Except VB (VB × List VEvent) :=
  let vb0 : VB :=
    { vb with
      L := vb.L ++ List.replicate rep none
      l := vb.l.map (· ++ List.replicate rep none) }
  let targets := if nodes.isEmpty then vb0.model else nodes
  updateGo targets rep vb0

/-! Derived definitions used to state and prove properties of the loop. -/

/-- State of VB.update after the initial pre-extension of the ledger by
rep NaN slots, before any round has run. -/
def preExtend (vb : VB) (rep : Nat) : VB :=
  { vb with
    L := vb.L ++ List.replicate rep none
    l := vb.l.map (· ++ List.replicate rep none) }

/-- Sum of the contributions of a node list at round it (the value
loglikelihood_lowerbound returns when nothing raises). -/
def modelSum (ns : List VNode) (it : Nat) : ℚ := (ns.map (·.contrib it)).sum

/-- Per-node series after the write phase of one successful round. -/
def roundL (vb : VB) : List (List (Option ℚ)) :=
  List.zipWith (fun n s => s.set vb.iter (some (n.contrib vb.iter))) vb.model vb.l

/-- Global bound computed in one successful round. -/
def roundBound (vb : VB) : ℚ := modelSum vb.model vb.iter

/-- Checkpoint written by the autosave inside a round: per-node series
already updated for the round, iteration counter and global series not
yet. -/
def roundCheckpoint (vb : VB) : Checkpoint :=
  ⟨vb.L, vb.iter, (vb.model.zip (roundL vb)).map fun p => (p.1.name, p.2)⟩

/-- Warning and convergence events of one successful round. -/
def progressEvents (vb : VB) : List VEvent :=
  if 0 < vb.iter then
    match vb.L.getD (vb.iter - 1) none with
    | some prev =>
      (if eps_warn < prev - roundBound vb then [.warned (prev - roundBound vb)] else []) ++
      (if roundBound vb - prev < eps_conv then [.converged] else [])
    | none => []
  else []

/-- Condition under which a round autosaves: positive cadence dividing
the 1-based iteration number. -/
def autosaveFires (vb : VB) : Prop :=
  0 < vb.autosave_iterations ∧ (vb.iter + 1) % vb.autosave_iterations = 0

instance (vb : VB) : Decidable (autosaveFires vb) := by
  unfold autosaveFires; infer_instance

/-- Events of one successful round. -/
def roundEvents (vb : VB) : List VEvent :=
  progressEvents vb ++
    (if autosaveFires vb then [.autosaved vb.autosave_filename (roundCheckpoint vb)] else [])

/-- State after one successful round. -/
def roundResult (vb : VB) : VB :=
  { vb with
    l := roundL vb
    L := vb.L.set vb.iter (some (roundBound vb))
    iter := vb.iter + 1 }

/-- State after k successful rounds. -/
def roundsResult : Nat → VB → VB
  | 0, vb => vb
  | k + 1, vb => roundsResult k (roundResult vb)

/-- Events of k successful rounds, in order. -/
def roundsEvents : Nat → VB → List VEvent
  | 0, _ => []
  | k + 1, vb => roundEvents vb ++ roundsEvents k (roundResult vb)

/-- Iteration counters recorded in the autosave checkpoints of a trace. -/
def autosavedIters (evs : List VEvent) : List Nat :=
  evs.filterMap fun e =>
    match e with
    | .autosaved _ cp => some cp.savedIter
    | _ => none

/-- One-based round numbers at which a trace autosaved (the counter the
checkpoint records is one less than the 1-based round number). -/
def autosaveRounds (evs : List VEvent) : List Nat := (autosavedIters evs).map (· + 1)

/-- Ledger invariant between update calls: the series lengths equal the
iteration counter, every recorded entry is non-sentinel, and the per-node
series are aligned with the model. -/
def CleanLedger (vb : VB) : Prop :=
  vb.L.length = vb.iter ∧
  vb.l.length = vb.model.length ∧
  (∀ s ∈ vb.l, s.length = vb.iter) ∧
  (∀ i < vb.iter, (vb.L.getD i none).isSome = true) ∧
  (∀ s ∈ vb.l, ∀ i < vb.iter, (s.getD i none).isSome = true)

instance (vb : VB) : Decidable (CleanLedger vb) := by
  unfold CleanLedger; infer_instance

/-- Ledger invariant between rounds inside one update call: all series
have the reserved length total, entries below iter are written, entries
from iter up are still sentinel. -/
def MidLedger (total : Nat) (vb : VB) : Prop :=
  vb.L.length = total ∧
  vb.iter ≤ total ∧
  vb.l.length = vb.model.length ∧
  (∀ s ∈ vb.l, s.length = total) ∧
  (∀ i < vb.iter, (vb.L.getD i none).isSome = true) ∧
  (∀ i < total, vb.iter ≤ i → vb.L.getD i none = none) ∧
  (∀ s ∈ vb.l, (∀ i < vb.iter, (s.getD i none).isSome = true) ∧
    (∀ i < total, vb.iter ≤ i → s.getD i none = none))

/-- Sum of the recorded per-node contributions at slot i (sentinel slots
count as 0; in consistent states none is sentinel below iter). -/
def rowSum (ls : List (List (Option ℚ))) (i : Nat) : ℚ :=
  (ls.map fun s => ((s.getD i none).getD 0)).sum

/-- For every completed round, the recorded global bound is the sum of
the recorded per-node contributions. -/
def SumConsistent (vb : VB) : Prop :=
  ∀ i < vb.iter, vb.L.getD i none = some (rowSum vb.l i)

instance (vb : VB) : Decidable (SumConsistent vb) := by
  unfold SumConsistent; infer_instance

/-- Weak ledger shape used on the failure path: series lengths are total
and the global slots from iter up are still sentinel. -/
def ReservedTail (total : Nat) (vb : VB) : Prop :=
  vb.L.length = total ∧
  (∀ i < total, vb.iter ≤ i → vb.L.getD i none = none) ∧
  vb.l.length = vb.model.length ∧
  (∀ s ∈ vb.l, s.length = total)

/-- No node callback raises in rounds lo up to (excluding) hi: no target
with an update capability raises from update(), and no model node raises
from lower_bound_contribution(). -/
def NoFailures (targets model : List VNode) (lo hi : Nat) : Prop :=
  (∀ n ∈ targets, ∀ it < hi, lo ≤ it → ¬(n.hasUpdate = true ∧ n.updateFails it = true)) ∧
  (∀ n ∈ model, ∀ it < hi, lo ≤ it → n.contribFails it = false)

instance (targets model : List VNode) (lo hi : Nat) :
    Decidable (NoFailures targets model lo hi) := by
  unfold NoFailures; infer_instance

/-- Every node of the model has a non-empty name (so save cannot raise). -/
def GoodNames (model : List VNode) : Prop := ∀ n ∈ model, ¬n.name = ""

instance (model : List VNode) : Decidable (GoodNames model) := by
  unfold GoodNames; infer_instance

/-! Concrete instances used for witnesses and counterexamples. -/

/-- Example node A of the spec scenario (P4): contributions 1.0, 1.5 and
1.5000000000005 over rounds 0, 1 and 2. -/
def exA : VNode :=
  ⟨0, "A", true, fun _ => false, fun _ => false,
    fun it => if it = 0 then 1 else if it = 1 then 3 / 2 else 3000000000001 / 2000000000000⟩

/-- Example node B of the spec scenario (P4): constant contribution 0.5. -/
def exB : VNode := ⟨1, "B", true, fun _ => false, fun _ => false, fun _ => 1 / 2⟩

/-- Fresh loop over exA and exB, autosave disabled (the state VB(A, B)
produces right after construction). -/
def exVB0 : VB := ⟨[exA, exB], 0, [], [[], []], 0, "tmp", none⟩

/-- State reached by a run, also on failure. -/
def runState (r : Except VB (VB × List VEvent)) : VB :=
  match r with
  | .ok (v, _) => v
  | .error v => v

/-- Events of a successful run (empty on failure). -/
def runEvents (r : Except VB (VB × List VEvent)) : List VEvent :=
  match r with
  | .ok (_, e) => e
  | .error _ => []

/-- Whether a run returned normally. -/
def isOk (r : Except VB (VB × List VEvent)) : Bool :=
  match r with
  | .ok _ => true
  | .error _ => false

/-- First update() call of the P4 scenario. -/
def exRun1 : Except VB (VB × List VEvent) := exVB0.update [] 1

/-- Second update() call of the P4 scenario. -/
def exRun2 : Except VB (VB × List VEvent) := (runState exRun1).update [] 1

/-- Third update() call of the P4 scenario. -/
def exRun3 : Except VB (VB × List VEvent) := (runState exRun2).update [] 1

/-- Node whose contribution drops from 2 to 0.5 after round 0. -/
def decA : VNode :=
  ⟨0, "A", true, fun _ => false, fun _ => false, fun it => if it = 0 then 2 else 1 / 2⟩

/-- Loop state after one completed round with bound 2, used to exercise
the regression warning in round 1. -/
def decVB1 : VB := ⟨[decA], 1, [some 2], [[some 2]], 0, "tmp", none⟩

/-- Constant node used in autosave scenarios. -/
def csA : VNode := ⟨0, "A", true, fun _ => false, fun _ => false, fun _ => 1⟩

/-- Fresh loop over csA with autosave cadence 2. -/
def csVB : VB := ⟨[csA], 0, [], [[]], 2, "auto.hdf5", none⟩

/-- Fresh loop over csA with autosave cadence 1. -/
def csVB1 : VB := ⟨[csA], 0, [], [[]], 1, "auto.hdf5", none⟩

/-- Node whose lower_bound_contribution() raises in every round. -/
def failA : VNode := ⟨0, "F", true, fun _ => false, fun _ => true, fun _ => 0⟩

/-- Fresh loop over failA. -/
def failVB : VB := ⟨[failA], 0, [], [[]], 0, "tmp", none⟩

/-- First of two distinct node objects sharing the name x. -/
def dupA : VNode := ⟨0, "x", true, fun _ => false, fun _ => false, fun _ => 0⟩

/-- Second of two distinct node objects sharing the name x. -/
def dupB : VNode := ⟨1, "x", true, fun _ => false, fun _ => false, fun _ => 0⟩

/-! Helper lemmas about the round computation. -/

theorem runUpdates_ok (it : Nat) (ts : List VNode)
    (h : ∀ n ∈ ts, ¬(n.hasUpdate = true ∧ n.updateFails it = true)) :
    runUpdates it ts = .ok () := by
  induction ts with
  | nil => rfl
  | cons n ns ih =>
    have hn := h n (List.mem_cons_self n ns)
    have hb : (n.hasUpdate && n.updateFails it) = false := by
      cases hu : n.hasUpdate <;> cases hf : n.updateFails it <;> simp_all
    simpa [runUpdates, hb] using ih fun m hm => h m (List.mem_cons_of_mem _ hm)

theorem llbGo_eq (it : Nat) (ns : List VNode) :
    ∀ (ls : List (List (Option ℚ))) (acc : ℚ),
      ns.length = ls.length →
      (∀ n ∈ ns, n.contribFails it = false) →
      llbGo it acc ns ls =
        (List.zipWith (fun n s => s.set it (some (n.contrib it))) ns ls,
         some (acc + modelSum ns it)) := by
  induction ns with
  | nil =>
    intro ls acc hlen _
    cases ls with
    | nil => simp [llbGo, modelSum]
    | cons s ss => simp at hlen
  | cons n ns ih =>
    intro ls acc hlen hC
    cases ls with
    | nil => simp at hlen
    | cons s ss =>
      have hn : n.contribFails it = false := hC n (List.mem_cons_self n ns)
      have hrec := ih ss (acc + n.contrib it) (by simpa using hlen)
        (fun m hm => hC m (List.mem_cons_of_mem _ hm))
      simp only [llbGo, hn, Bool.false_eq_true, if_false, hrec, List.zipWith_cons_cons]
      simp [modelSum, add_assoc]

theorem llbGo_fst_shape (it : Nat) (ns : List VNode) :
    ∀ (ls : List (List (Option ℚ))) (acc : ℚ),
      ns.length = ls.length →
      (llbGo it acc ns ls).1.length = ls.length ∧
        ∀ s' ∈ (llbGo it acc ns ls).1, ∃ s ∈ ls, s'.length = s.length := by
  induction ns with
  | nil =>
    intro ls acc _
    constructor
    · simp [llbGo]
    · intro s' hs'
      exact ⟨s', by simpa [llbGo] using hs', rfl⟩
  | cons n ns ih =>
    intro ls acc hlen
    cases ls with
    | nil => simp at hlen
    | cons s ss =>
      by_cases hn : n.contribFails it = true
      · constructor
        · simp [llbGo, hn]
        · intro s' hs'
          refine ⟨s', ?_, rfl⟩
          simpa [llbGo, hn] using hs'
      · have hrec := ih ss (acc + n.contrib it) (by simpa using hlen)
        simp only [Bool.not_eq_true] at hn
        constructor
        · simp [llbGo, hn, hrec.1]
        · intro s' hs'
          simp only [llbGo, hn, Bool.false_eq_true, if_false, List.mem_cons] at hs'
          rcases hs' with h | h
          · exact ⟨s, List.mem_cons_self s ss, by simp [h]⟩
          · obtain ⟨t, ht, hlen'⟩ := hrec.2 s' h
            exact ⟨t, List.mem_cons_of_mem _ ht, hlen'⟩

theorem save_ok (vb : VB) (fn : String) (hfn : ¬fn = "") (hN : GoodNames vb.model) :
    vb.save (some fn) =
      .ok (fn, ⟨vb.L, vb.iter, (vb.model.zip vb.l).map fun p => (p.1.name, p.2)⟩) := by
  have h1 : pyFalsy (some fn) = false := by
    simp only [pyFalsy]
    rw [← Bool.not_eq_true]
    intro h
    exact hfn ((String.isEmpty_iff fn).mp h)
  have h2 : vb.model.any (fun n => n.name == "") = false := by
    rw [List.any_eq_false]
    intro n hn
    simpa using hN n hn
  simp [VB.save, resolveFilename, h1, h2]

theorem updateRound_eq (targets : List VNode) (vb : VB)
    (hU : ∀ n ∈ targets, ¬(n.hasUpdate = true ∧ n.updateFails vb.iter = true))
    (hC : ∀ n ∈ vb.model, n.contribFails vb.iter = false)
    (hlen : vb.l.length = vb.model.length)
    (hN : GoodNames vb.model)
    (hAF : ¬vb.autosave_filename = "") :
    updateRound targets vb = .ok (roundResult vb, roundEvents vb) := by
  have hru := runUpdates_ok vb.iter targets hU
  have hllb : loglikelihood_lowerbound vb =
      ({ vb with l := roundL vb }, some (roundBound vb)) := by
    unfold loglikelihood_lowerbound
    rw [llbGo_eq vb.iter vb.model vb.l 0 hlen.symm hC]
    simp [roundL, roundBound]
  have hsave := save_ok { vb with l := roundL vb } vb.autosave_filename hAF hN
  simp only [updateRound, hru, hllb, hsave]
  by_cases hfire : autosaveFires vb
  · rw [if_pos (by simpa [autosaveFires] using hfire)]
    simp [roundEvents, roundResult, progressEvents, roundCheckpoint, if_pos hfire]
  · rw [if_neg (by simpa [autosaveFires] using hfire)]
    simp [roundEvents, roundResult, progressEvents, if_neg hfire]

theorem roundResult_iter (vb : VB) : (roundResult vb).iter = vb.iter + 1 := rfl

theorem roundResult_l_length (vb : VB) (hlen : vb.l.length = vb.model.length) :
    (roundResult vb).l.length = (roundResult vb).model.length := by
  simp [roundResult, roundL, hlen]

theorem updateGo_eq (targets : List VNode) (k : Nat) :
    ∀ vb : VB,
      (∀ n ∈ targets, ∀ it < vb.iter + k, vb.iter ≤ it →
        ¬(n.hasUpdate = true ∧ n.updateFails it = true)) →
      (∀ n ∈ vb.model, ∀ it < vb.iter + k, vb.iter ≤ it → n.contribFails it = false) →
      vb.l.length = vb.model.length →
      GoodNames vb.model →
      ¬vb.autosave_filename = "" →
      updateGo targets k vb = .ok (roundsResult k vb, roundsEvents k vb) := by
  induction k with
  | zero =>
    intro vb _ _ _ _ _
    simp [updateGo, roundsResult, roundsEvents]
  | succ k ih =>
    intro vb hU hC hlen hN hAF
    have h1 := updateRound_eq targets vb
      (fun n hn => hU n hn vb.iter (by omega) (le_refl _))
      (fun n hn => hC n hn vb.iter (by omega) (le_refl _))
      hlen hN hAF
    have hrec := ih (roundResult vb)
      (fun n hn it hit hle => hU n hn it (by simp only [roundResult_iter] at hit; omega)
        (by simp only [roundResult_iter] at hle; omega))
      (fun n hn it hit hle => hC n hn it (by simp only [roundResult_iter] at hit; omega)
        (by simp only [roundResult_iter] at hle; omega))
      (roundResult_l_length vb hlen) hN hAF
    simp only [updateGo, h1, hrec]
    simp [roundsResult, roundsEvents]

theorem update_eq (vb : VB) (nodes : List VNode) (rep : Nat)
    (hF : NoFailures (if nodes.isEmpty then vb.model else nodes) vb.model
      vb.iter (vb.iter + rep))
    (hlen : vb.l.length = vb.model.length)
    (hN : GoodNames vb.model)
    (hAF : ¬vb.autosave_filename = "") :
    vb.update nodes rep =
      .ok (roundsResult rep (preExtend vb rep), roundsEvents rep (preExtend vb rep)) := by
  have hform : vb.update nodes rep =
      updateGo (if nodes.isEmpty then (preExtend vb rep).model else nodes) rep
        (preExtend vb rep) := rfl
  rw [hform]
  exact updateGo_eq _ rep (preExtend vb rep)
    (fun n hn it hit hle => hF.1 n hn it hit hle)
    (fun n hn it hit hle => hF.2 n hn it hit hle)
    (by simp [preExtend, hlen]) hN hAF

/-! Lemmas about getD on set, append and replicate, used for the ledger
invariants. -/

theorem getD_set_self' (l : List (Option ℚ)) (i : Nat) (a : Option ℚ) (h : i < l.length) :
    (l.set i a).getD i none = a := by
  simp [List.getD_eq_getElem?_getD, List.getElem?_set_self h]

theorem getD_set_ne' (l : List (Option ℚ)) (i j : Nat) (a : Option ℚ) (h : i ≠ j) :
    (l.set i a).getD j none = l.getD j none := by
  simp [List.getD_eq_getElem?_getD, List.getElem?_set_ne h]

theorem getD_append_left' (l l' : List (Option ℚ)) (i : Nat) (h : i < l.length) :
    (l ++ l').getD i none = l.getD i none := by
  simp [List.getD_eq_getElem?_getD, List.getElem?_append_left h]

theorem getD_append_replicate_none (l : List (Option ℚ)) (k i : Nat) (h : l.length ≤ i) :
    (l ++ List.replicate k none).getD i none = none := by
  simp only [List.getD_eq_getElem?_getD, List.getElem?_append_right h,
    List.getElem?_replicate]
  split <;> rfl

theorem getD_none_of_le (l : List (Option ℚ)) (i : Nat) (h : l.length ≤ i) :
    l.getD i none = none := by
  simp [List.getD_eq_getElem?_getD, List.getElem?_eq_none h]

theorem mem_zipWith_pair {α β γ : Type} (f : α → β → γ) :
    ∀ (l1 : List α) (l2 : List β), ∀ c ∈ List.zipWith f l1 l2,
      ∃ a b, a ∈ l1 ∧ b ∈ l2 ∧ c = f a b := by
  intro l1
  induction l1 with
  | nil => intro l2 c hc; simp at hc
  | cons a l1 ih =>
    intro l2 c hc
    cases l2 with
    | nil => simp at hc
    | cons b l2 =>
      rcases (by simpa using hc : c = f a b ∨ c ∈ List.zipWith f l1 l2) with h | h
      · exact ⟨a, b, List.mem_cons_self _ _, List.mem_cons_self _ _, h⟩
      · obtain ⟨x, y, hx, hy, hxy⟩ := ih l2 c h
        exact ⟨x, y, List.mem_cons_of_mem _ hx, List.mem_cons_of_mem _ hy, hxy⟩

/-! Preservation of the ledger invariants. -/

theorem preExtend_mid (vb : VB) (k : Nat) (h : CleanLedger vb) :
    MidLedger (vb.iter + k) (preExtend vb k) := by
  have hit : (preExtend vb k).iter = vb.iter := rfl
  obtain ⟨hL, hl, hsl, hfront, hlfront⟩ := h
  refine ⟨?_, ?_, ?_, ?_, ?_, ?_, ?_⟩
  · simp [preExtend, hL]
  · omega
  · simp [preExtend, hl]
  · intro s' hs'
    simp only [preExtend, List.mem_map] at hs'
    obtain ⟨s, hs, rfl⟩ := hs'
    simp [hsl s hs]
  · intro i hi
    show ((vb.L ++ List.replicate k none).getD i none).isSome = true
    rw [getD_append_left' _ _ _ (by omega)]
    exact hfront i hi
  · intro i _ hi2
    exact getD_append_replicate_none _ _ _ (by omega)
  · intro s' hs'
    simp only [preExtend, List.mem_map] at hs'
    obtain ⟨s, hs, rfl⟩ := hs'
    constructor
    · intro i hi
      rw [getD_append_left' _ _ _ (by rw [hsl s hs]; omega)]
      exact hlfront s hs i hi
    · intro i _ hi2
      exact getD_append_replicate_none _ _ _ (by rw [hsl s hs]; omega)

theorem roundResult_mid (total : Nat) (vb : VB) (h : MidLedger total vb)
    (hlt : vb.iter < total) : MidLedger total (roundResult vb) := by
  obtain ⟨hL, _, hl, hsl, hfront, hback, hlparts⟩ := h
  refine ⟨?_, ?_, ?_, ?_, ?_, ?_, ?_⟩
  · simp [roundResult, hL]
  · simp [roundResult_iter]; omega
  · simp [roundResult, roundL, hl]
  · intro s' hs'
    obtain ⟨n, s, _, hs, rfl⟩ := mem_zipWith_pair _ _ _ s' hs'
    simp [hsl s hs]
  · intro i hi
    simp only [roundResult_iter] at hi
    show (((vb.L.set vb.iter (some (roundBound vb))).getD i none)).isSome = true
    rcases Nat.lt_or_ge i vb.iter with h' | h'
    · rw [getD_set_ne' _ _ _ _ (by omega)]
      exact hfront i h'
    · have : i = vb.iter := by omega
      subst this
      rw [getD_set_self' _ _ _ (by omega)]
      rfl
  · intro i hi hge
    simp only [roundResult_iter] at hge
    show (vb.L.set vb.iter (some (roundBound vb))).getD i none = none
    rw [getD_set_ne' _ _ _ _ (by omega)]
    exact hback i hi (by omega)
  · intro s' hs'
    obtain ⟨n, s, _, hs, rfl⟩ := mem_zipWith_pair _ _ _ s' hs'
    obtain ⟨hf, hb⟩ := hlparts s hs
    constructor
    · intro i hi
      simp only [roundResult_iter] at hi
      rcases Nat.lt_or_ge i vb.iter with h' | h'
      · rw [getD_set_ne' _ _ _ _ (by omega)]
        exact hf i h'
      · have : i = vb.iter := by omega
        subst this
        rw [getD_set_self' _ _ _ (by rw [hsl s hs]; omega)]
        rfl
    · intro i hi hge
      simp only [roundResult_iter] at hge
      rw [getD_set_ne' _ _ _ _ (by omega)]
      exact hb i hi (by omega)

theorem roundsResult_mid (k : Nat) :
    ∀ (total : Nat) (vb : VB), MidLedger total vb → vb.iter + k ≤ total →
      MidLedger total (roundsResult k vb) ∧ (roundsResult k vb).iter = vb.iter + k := by
  induction k with
  | zero => intro total vb h _; exact ⟨h, rfl⟩
  | succ k ih =>
    intro total vb h hk
    have h1 := roundResult_mid total vb h (by omega)
    have := ih total (roundResult vb) h1 (by simp [roundResult_iter]; omega)
    refine ⟨by simpa [roundsResult] using this.1, ?_⟩
    simp only [roundsResult]
    rw [this.2, roundResult_iter]
    omega

theorem mid_full_clean (vb : VB) (h : MidLedger vb.iter vb) : CleanLedger vb := by
  obtain ⟨hL, _, hl, hsl, hfront, _, hlparts⟩ := h
  exact ⟨hL, hl, hsl, hfront, fun s hs => (hlparts s hs).1⟩

/-! Claims. -/

/-- C1: for every loop instance and every sequence of update calls,
provided no node callback raises, each update(repeat=k) call increases
iter by exactly k, and afterwards the global series and every per-node
series have equal lengths, with exactly iter non-sentinel entries at the
front and any slot beyond iter still sentinel (after a successful call
the series lengths equal iter, so CleanLedger captures both).  Stated as
preservation of CleanLedger over a single call, which yields every call
sequence by induction. -/
theorem C1_ledger_alignment (vb : VB) (nodes : List VNode) (k : Nat)
    (hclean : CleanLedger vb)
    (hF : NoFailures (if nodes.isEmpty then vb.model else nodes) vb.model
      vb.iter (vb.iter + k))
    (hN : GoodNames vb.model)
    (hAF : ¬vb.autosave_filename = "") :
    ∃ vb' evs, vb.update nodes k = .ok (vb', evs) ∧
      vb'.iter = vb.iter + k ∧
      CleanLedger vb' ∧
      (∀ s ∈ vb'.l, s.length = vb'.L.length) := by
  have hlen := hclean.2.1
  have hupd := update_eq vb nodes k hF hlen hN hAF
  have hmid := preExtend_mid vb k hclean
  have h2 := roundsResult_mid k (vb.iter + k) (preExtend vb k) hmid (Nat.le_refl _)
  have hfin : (roundsResult k (preExtend vb k)).iter = vb.iter + k := h2.2
  have hcl : CleanLedger (roundsResult k (preExtend vb k)) :=
    mid_full_clean _ (by rw [hfin]; exact h2.1)
  exact ⟨_, _, hupd, hfin, hcl,
    fun s hs => by rw [hcl.2.2.1 s hs]; exact hcl.1.symm⟩

unseal Rat.add Rat.mul Rat.inv Rat.sub in
/-- Witness for C1: a fresh two-node loop, one call with repeat 2. -/
theorem C1_ledger_alignment_witness :
    (CleanLedger exVB0 ∧
      NoFailures (if ([] : List VNode).isEmpty then exVB0.model else []) exVB0.model
        exVB0.iter (exVB0.iter + 2) ∧
      GoodNames exVB0.model ∧ ¬exVB0.autosave_filename = "") ∧
    (∃ vb' evs, exVB0.update [] 2 = .ok (vb', evs) ∧
      vb'.iter = exVB0.iter + 2 ∧
      CleanLedger vb' ∧
      (∀ s ∈ vb'.l, s.length = vb'.L.length)) :=
  ⟨⟨by decide, by decide, by decide, by decide⟩,
    C1_ledger_alignment exVB0 [] 2 (by decide) (by decide) (by decide) (by decide)⟩

theorem rowSum_append_replicate (k i : Nat) :
    ∀ ls : List (List (Option ℚ)), (∀ s ∈ ls, i < s.length) →
      rowSum (ls.map (· ++ List.replicate k none)) i = rowSum ls i := by
  intro ls
  induction ls with
  | nil => intro _; rfl
  | cons s ss ih =>
    intro h
    have hs := h s (List.mem_cons_self s ss)
    have htail := ih fun t ht => h t (List.mem_cons_of_mem _ ht)
    simp only [rowSum, List.map_cons, List.sum_cons] at htail ⊢
    rw [getD_append_left' _ _ _ hs, htail]

theorem rowSum_zipWith_set_ne (it j : Nat) (hne : j ≠ it) :
    ∀ (ns : List VNode) (ls : List (List (Option ℚ))), ns.length = ls.length →
      rowSum (List.zipWith (fun n s => s.set it (some (n.contrib it))) ns ls) j =
        rowSum ls j := by
  intro ns
  induction ns with
  | nil =>
    intro ls hlen
    cases ls with
    | nil => rfl
    | cons s ss => simp at hlen
  | cons n ns ih =>
    intro ls hlen
    cases ls with
    | nil => simp at hlen
    | cons s ss =>
      have htail := ih ss (by simpa using hlen)
      simp only [rowSum, List.zipWith_cons_cons, List.map_cons, List.sum_cons] at htail ⊢
      rw [getD_set_ne' _ _ _ _ (fun h => hne h.symm), htail]

theorem rowSum_zipWith_set_self (it : Nat) :
    ∀ (ns : List VNode) (ls : List (List (Option ℚ))), ns.length = ls.length →
      (∀ s ∈ ls, it < s.length) →
      rowSum (List.zipWith (fun n s => s.set it (some (n.contrib it))) ns ls) it =
        modelSum ns it := by
  intro ns
  induction ns with
  | nil =>
    intro ls hlen _
    cases ls with
    | nil => rfl
    | cons s ss => simp at hlen
  | cons n ns ih =>
    intro ls hlen hbound
    cases ls with
    | nil => simp at hlen
    | cons s ss =>
      have htail := ih ss (by simpa using hlen)
        (fun t ht => hbound t (List.mem_cons_of_mem _ ht))
      simp only [rowSum, List.zipWith_cons_cons, List.map_cons, List.sum_cons,
        modelSum] at htail ⊢
      rw [getD_set_self' _ _ _ (hbound s (List.mem_cons_self s ss)), htail]
      rfl

theorem roundResult_sum (total : Nat) (vb : VB) (hmid : MidLedger total vb)
    (hlt : vb.iter < total) (hsum : SumConsistent vb) :
    SumConsistent (roundResult vb) := by
  intro i hi
  simp only [roundResult_iter] at hi
  show (vb.L.set vb.iter (some (roundBound vb))).getD i none =
    some (rowSum (roundL vb) i)
  have hlen : vb.model.length = vb.l.length := hmid.2.2.1.symm
  rcases Nat.lt_or_ge i vb.iter with h' | h'
  · rw [getD_set_ne' _ _ _ _ (by omega),
      show rowSum (roundL vb) i = rowSum vb.l i from
        rowSum_zipWith_set_ne vb.iter i (by omega) vb.model vb.l hlen]
    exact hsum i h'
  · have hieq : i = vb.iter := by omega
    subst hieq
    rw [getD_set_self' _ _ _ (by rw [hmid.1]; omega)]
    rw [show rowSum (roundL vb) vb.iter = modelSum vb.model vb.iter from
      rowSum_zipWith_set_self vb.iter vb.model vb.l hlen
        (fun s hs => by rw [hmid.2.2.2.1 s hs]; omega)]
    rfl

theorem roundsResult_sum (k : Nat) :
    ∀ (total : Nat) (vb : VB), MidLedger total vb → vb.iter + k ≤ total →
      SumConsistent vb → SumConsistent (roundsResult k vb) := by
  induction k with
  | zero => intro total vb _ _ hs; exact hs
  | succ k ih =>
    intro total vb hmid hk hs
    have h1 := roundResult_mid total vb hmid (by omega)
    have h2 := roundResult_sum total vb hmid (by omega) hs
    simpa [roundsResult] using
      ih total (roundResult vb) h1 (by simp [roundResult_iter]; omega) h2

theorem preExtend_sum (vb : VB) (k : Nat) (hclean : CleanLedger vb)
    (hsum : SumConsistent vb) : SumConsistent (preExtend vb k) := by
  intro i hi
  have hi' : i < vb.iter := hi
  show (vb.L ++ List.replicate k none).getD i none =
    some (rowSum (vb.l.map (· ++ List.replicate k none)) i)
  rw [getD_append_left' _ _ _ (by rw [hclean.1]; omega),
    rowSum_append_replicate k i vb.l
      (fun s hs => by rw [hclean.2.2.1 s hs]; omega)]
  exact hsum i hi'

/-- C2: for every completed round i, the recorded global bound equals
the sum over all nodes in the model of the recorded per-node
contribution for round i; the sum always ranges over the whole model
(the target list nodes is arbitrary and may name any subset). -/
theorem C2_sum_consistency (vb : VB) (nodes : List VNode) (k : Nat)
    (hclean : CleanLedger vb)
    (hsum : SumConsistent vb)
    (hF : NoFailures (if nodes.isEmpty then vb.model else nodes) vb.model
      vb.iter (vb.iter + k))
    (hN : GoodNames vb.model)
    (hAF : ¬vb.autosave_filename = "") :
    ∃ vb' evs, vb.update nodes k = .ok (vb', evs) ∧
      vb'.iter = vb.iter + k ∧
      ∀ i < vb'.iter, vb'.L.getD i none = some (rowSum vb'.l i) := by
  have hupd := update_eq vb nodes k hF hclean.2.1 hN hAF
  have hmid := preExtend_mid vb k hclean
  have h2 := roundsResult_mid k (vb.iter + k) (preExtend vb k) hmid (Nat.le_refl _)
  have hs0 : SumConsistent (preExtend vb k) := preExtend_sum vb k hclean hsum
  have hs1 : SumConsistent (roundsResult k (preExtend vb k)) :=
    roundsResult_sum k (vb.iter + k) (preExtend vb k) hmid (Nat.le_refl _) hs0
  exact ⟨_, _, hupd, h2.2, hs1⟩

unseal Rat.add Rat.mul Rat.inv Rat.sub in
/-- Witness for C2: a fresh two-node loop, updating only the subset
consisting of node A, for two rounds. -/
theorem C2_sum_consistency_witness :
    (CleanLedger exVB0 ∧ SumConsistent exVB0 ∧
      NoFailures (if [exA].isEmpty then exVB0.model else [exA]) exVB0.model
        exVB0.iter (exVB0.iter + 2) ∧
      GoodNames exVB0.model ∧ ¬exVB0.autosave_filename = "") ∧
    (∃ vb' evs, exVB0.update [exA] 2 = .ok (vb', evs) ∧
      vb'.iter = exVB0.iter + 2 ∧
      ∀ i < vb'.iter, vb'.L.getD i none = some (rowSum vb'.l i)) :=
  ⟨⟨by decide, by decide, by decide, by decide, by decide⟩,
    C2_sum_consistency exVB0 [exA] 2 (by decide) (by decide) (by decide)
      (by decide) (by decide)⟩

theorem roundsEvents_one (vb : VB) : roundsEvents 1 vb = roundEvents vb := by
  simp [roundsEvents]

theorem update_one (vb : VB) (nodes : List VNode)
    (hclean : CleanLedger vb)
    (hF : NoFailures (if nodes.isEmpty then vb.model else nodes) vb.model
      vb.iter (vb.iter + 1))
    (hN : GoodNames vb.model) (hAF : ¬vb.autosave_filename = "") :
    vb.update nodes 1 =
      .ok (roundResult (preExtend vb 1), roundEvents (preExtend vb 1)) := by
  have h := update_eq vb nodes 1 hF hclean.2.1 hN hAF
  rw [h, roundsEvents_one]
  rfl

theorem progressEvents_of_prev (vb : VB) (prev : ℚ) (h0 : 0 < vb.iter)
    (hprev : vb.L.getD (vb.iter - 1) none = some prev) :
    progressEvents vb =
      (if eps_warn < prev - roundBound vb then [.warned (prev - roundBound vb)]
        else []) ++
      (if roundBound vb - prev < eps_conv then [.converged] else []) := by
  simp only [progressEvents, if_pos h0, hprev]

theorem preExtend_one_prev (vb : VB) (prev : ℚ) (hclean : CleanLedger vb)
    (h0 : 0 < vb.iter)
    (hprev : vb.L.getD (vb.iter - 1) none = some prev) :
    (preExtend vb 1).L.getD ((preExtend vb 1).iter - 1) none = some prev := by
  show (vb.L ++ List.replicate 1 none).getD (vb.iter - 1) none = some prev
  rw [getD_append_left' _ _ _ (by rw [hclean.1]; omega)]
  exact hprev

/-- C4: in any round other than the first ever run, if the newly computed
bound is lower than the immediately preceding recorded bound by more than
1e-6, update emits the non-fatal warning and does not raise; execution
continues (iter advances) and the ledger records the lower value verbatim
at the current slot. -/
theorem C4_regression_warning (vb : VB) (nodes : List VNode) (prev : ℚ)
    (hclean : CleanLedger vb) (h0 : 0 < vb.iter)
    (hprev : vb.L.getD (vb.iter - 1) none = some prev)
    (hF : NoFailures (if nodes.isEmpty then vb.model else nodes) vb.model
      vb.iter (vb.iter + 1))
    (hN : GoodNames vb.model) (hAF : ¬vb.autosave_filename = "")
    (hreg : eps_warn < prev - modelSum vb.model vb.iter) :
    ∃ vb' evs, vb.update nodes 1 = .ok (vb', evs) ∧
      VEvent.warned (prev - modelSum vb.model vb.iter) ∈ evs ∧
      vb'.iter = vb.iter + 1 ∧
      vb'.L.getD vb.iter none = some (modelSum vb.model vb.iter) := by
  have hupd := update_one vb nodes hclean hF hN hAF
  have h0' : 0 < (preExtend vb 1).iter := h0
  have hprev' := preExtend_one_prev vb prev hclean h0 hprev
  have hRB : roundBound (preExtend vb 1) = modelSum vb.model vb.iter := rfl
  have hpe := progressEvents_of_prev (preExtend vb 1) prev h0' hprev'
  refine ⟨_, _, hupd, ?_, rfl, ?_⟩
  · show VEvent.warned (prev - modelSum vb.model vb.iter) ∈
      roundEvents (preExtend vb 1)
    rw [roundEvents]
    apply List.mem_append_left
    rw [hpe, hRB, if_pos hreg]
    exact List.mem_append_left _ (List.mem_cons_self _ _)
  · show ((preExtend vb 1).L.set vb.iter
      (some (roundBound (preExtend vb 1)))).getD vb.iter none = _
    rw [getD_set_self' _ _ _ (by
      simp only [preExtend, List.length_append, List.length_replicate, hclean.1]
      omega)]
    rw [hRB]

unseal Rat.add Rat.mul Rat.inv Rat.sub in
/-- Witness for C4: a one-node loop whose bound drops from 2 to 0.5 in
its second round. -/
theorem C4_regression_warning_witness :
    (CleanLedger decVB1 ∧ 0 < decVB1.iter ∧
      decVB1.L.getD (decVB1.iter - 1) none = some 2 ∧
      NoFailures (if ([] : List VNode).isEmpty then decVB1.model else [])
        decVB1.model decVB1.iter (decVB1.iter + 1) ∧
      GoodNames decVB1.model ∧ ¬decVB1.autosave_filename = "" ∧
      eps_warn < 2 - modelSum decVB1.model decVB1.iter) ∧
    (∃ vb' evs, decVB1.update [] 1 = .ok (vb', evs) ∧
      VEvent.warned (2 - modelSum decVB1.model decVB1.iter) ∈ evs ∧
      vb'.iter = decVB1.iter + 1 ∧
      vb'.L.getD decVB1.iter none = some (modelSum decVB1.model decVB1.iter)) :=
  ⟨⟨by decide, by decide, by decide, by decide, by decide, by decide, by decide⟩,
    C4_regression_warning decVB1 [] 2 (by decide) (by decide) (by decide)
      (by decide) (by decide) (by decide) (by decide)⟩

unseal Rat.add Rat.mul Rat.inv Rat.sub in
/-- C5: when the increase in bound from the previous round to the current
round is smaller than 1e-12, update reports convergence without altering
control flow: the call returns normally and the ledger advances
(general statement), and in particular the spec example runs as stated:
model [A, B] with A contributing 1.0, 1.5, 1.5000000000005 and B
contributing 0.5 over three single-step update() calls yields globalBound
[1.5, 2.0, 2.0000000000005], the third round reports convergence, and no
regression warning is emitted at any step. -/
theorem C5_convergence_signal :
    (∀ (vb : VB) (nodes : List VNode) (prev : ℚ),
      CleanLedger vb → 0 < vb.iter →
      vb.L.getD (vb.iter - 1) none = some prev →
      NoFailures (if nodes.isEmpty then vb.model else nodes) vb.model
        vb.iter (vb.iter + 1) →
      GoodNames vb.model → ¬vb.autosave_filename = "" →
      modelSum vb.model vb.iter - prev < eps_conv →
      ∃ vb' evs, vb.update nodes 1 = .ok (vb', evs) ∧
        VEvent.converged ∈ evs ∧ vb'.iter = vb.iter + 1 ∧
        vb'.L.getD vb.iter none = some (modelSum vb.model vb.iter)) ∧
    (isOk exRun1 = true ∧ isOk exRun2 = true ∧ isOk exRun3 = true ∧
      (runState exRun3).L =
        [some (3 / 2), some 2, some (20000000000005 / 10000000000000)] ∧
      (runState exRun3).iter = 3 ∧
      runEvents exRun3 = [VEvent.converged] ∧
      runEvents exRun1 = [] ∧ runEvents exRun2 = []) := by
  constructor
  · intro vb nodes prev hclean h0 hprev hF hN hAF hconv
    have hupd := update_one vb nodes hclean hF hN hAF
    have h0' : 0 < (preExtend vb 1).iter := h0
    have hprev' := preExtend_one_prev vb prev hclean h0 hprev
    have hRB : roundBound (preExtend vb 1) = modelSum vb.model vb.iter := rfl
    have hpe := progressEvents_of_prev (preExtend vb 1) prev h0' hprev'
    refine ⟨_, _, hupd, ?_, rfl, ?_⟩
    · show VEvent.converged ∈ roundEvents (preExtend vb 1)
      rw [roundEvents]
      apply List.mem_append_left
      rw [hpe, hRB, if_pos hconv]
      exact List.mem_append_right _ (List.mem_cons_self _ _)
    · show ((preExtend vb 1).L.set vb.iter
        (some (roundBound (preExtend vb 1)))).getD vb.iter none = _
      rw [getD_set_self' _ _ _ (by
        simp only [preExtend, List.length_append, List.length_replicate, hclean.1]
        omega)]
      rw [hRB]
  · exact ⟨by decide, by decide, by decide, by decide, by decide, by decide,
      by decide, by decide⟩

unseal Rat.add Rat.mul Rat.inv Rat.sub in
/-- Witness for C5 (general part): the third round of the spec example,
where the increase 5e-13 is below 1e-12. -/
theorem C5_convergence_signal_witness :
    (CleanLedger (runState exRun2) ∧ 0 < (runState exRun2).iter ∧
      (runState exRun2).L.getD ((runState exRun2).iter - 1) none = some 2 ∧
      NoFailures (if ([] : List VNode).isEmpty then (runState exRun2).model else [])
        (runState exRun2).model (runState exRun2).iter ((runState exRun2).iter + 1) ∧
      GoodNames (runState exRun2).model ∧
      ¬(runState exRun2).autosave_filename = "" ∧
      modelSum (runState exRun2).model (runState exRun2).iter - 2 < eps_conv) ∧
    (∃ vb' evs, (runState exRun2).update [] 1 = .ok (vb', evs) ∧
      VEvent.converged ∈ evs ∧ vb'.iter = (runState exRun2).iter + 1 ∧
      vb'.L.getD (runState exRun2).iter none =
        some (modelSum (runState exRun2).model (runState exRun2).iter)) :=
  ⟨⟨by decide, by decide, by decide, by decide, by decide, by decide, by decide⟩,
    C5_convergence_signal.1 (runState exRun2) [] 2 (by decide) (by decide)
      (by decide) (by decide) (by decide) (by decide) (by decide)⟩

/-- C10: the convergence report and the regression warning are not
mutually exclusive: any decrease of the bound satisfies the convergence
condition, so in every round after the first in which the bound decreases
by more than 1e-6, update emits the regression warning and reports
convergence in the same round. -/
theorem C10_warning_and_convergence (vb : VB) (nodes : List VNode) (prev : ℚ)
    (hclean : CleanLedger vb) (h0 : 0 < vb.iter)
    (hprev : vb.L.getD (vb.iter - 1) none = some prev)
    (hF : NoFailures (if nodes.isEmpty then vb.model else nodes) vb.model
      vb.iter (vb.iter + 1))
    (hN : GoodNames vb.model) (hAF : ¬vb.autosave_filename = "")
    (hreg : eps_warn < prev - modelSum vb.model vb.iter) :
    ∃ vb' evs, vb.update nodes 1 = .ok (vb', evs) ∧
      VEvent.warned (prev - modelSum vb.model vb.iter) ∈ evs ∧
      VEvent.converged ∈ evs := by
  have hconv : modelSum vb.model vb.iter - prev < eps_conv := by
    have h1 : (0 : ℚ) < eps_warn := by norm_num [eps_warn]
    have h2 : (0 : ℚ) < eps_conv := by norm_num [eps_conv]
    linarith
  have hupd := update_one vb nodes hclean hF hN hAF
  have h0' : 0 < (preExtend vb 1).iter := h0
  have hprev' := preExtend_one_prev vb prev hclean h0 hprev
  have hRB : roundBound (preExtend vb 1) = modelSum vb.model vb.iter := rfl
  have hpe := progressEvents_of_prev (preExtend vb 1) prev h0' hprev'
  refine ⟨_, _, hupd, ?_, ?_⟩
  · show VEvent.warned (prev - modelSum vb.model vb.iter) ∈
      roundEvents (preExtend vb 1)
    rw [roundEvents]
    apply List.mem_append_left
    rw [hpe, hRB, if_pos hreg]
    exact List.mem_append_left _ (List.mem_cons_self _ _)
  · show VEvent.converged ∈ roundEvents (preExtend vb 1)
    rw [roundEvents]
    apply List.mem_append_left
    rw [hpe, hRB, if_pos hconv]
    exact List.mem_append_right _ (List.mem_cons_self _ _)

unseal Rat.add Rat.mul Rat.inv Rat.sub in
/-- Witness for C10: the decVB1 regression round also reports
convergence. -/
theorem C10_warning_and_convergence_witness :
    (CleanLedger decVB1 ∧ 0 < decVB1.iter ∧
      decVB1.L.getD (decVB1.iter - 1) none = some 2 ∧
      NoFailures (if ([] : List VNode).isEmpty then decVB1.model else [])
        decVB1.model decVB1.iter (decVB1.iter + 1) ∧
      GoodNames decVB1.model ∧ ¬decVB1.autosave_filename = "" ∧
      eps_warn < 2 - modelSum decVB1.model decVB1.iter) ∧
    (∃ vb' evs, decVB1.update [] 1 = .ok (vb', evs) ∧
      VEvent.warned (2 - modelSum decVB1.model decVB1.iter) ∈ evs ∧
      VEvent.converged ∈ evs) :=
  ⟨⟨by decide, by decide, by decide, by decide, by decide, by decide, by decide⟩,
    C10_warning_and_convergence decVB1 [] 2 (by decide) (by decide) (by decide)
      (by decide) (by decide) (by decide) (by decide)⟩

unseal Rat.add Rat.mul Rat.inv Rat.sub in
/-- C3 (code bug in the constructor check): the source compares
len(names) with len(self.model), where names is built by mapping
node.name over self.model, so the two lengths are always equal and the
check never fires.  Construction therefore never raises (first conjunct,
for every input), and in particular two distinct node objects sharing
the name x are accepted and yield a usable loop instance (second
conjunct), contradicting the claim that a ConfigurationError is
raised. -/
theorem C3_duplicate_names_not_rejected :
    (∀ (nodes : List VNode) (c : Nat) (f : Option String) (tmp : String),
      ∃ vb, VB.init nodes c f tmp = .ok vb) ∧
    (dupA.name = dupB.name ∧ dupA.id ≠ dupB.id ∧
      ∃ vb, VB.init [dupA, dupB] 0 none "tmp" = .ok vb ∧
        vb.model = [dupA, dupB] ∧
        ∃ vb' evs, vb.update [] 1 = .ok (vb', evs) ∧ vb'.iter = 1) := by
  constructor
  · intro nodes c f tmp
    have hcond : ¬((unique nodes).map (·.name)).length ≠ (unique nodes).length := by
      simp
    exact ⟨_, if_neg hcond⟩
  · refine ⟨rfl, by decide, ⟨[dupA, dupB], 0, [], [[], []], 0, "tmp", none⟩,
      rfl, rfl, ?_⟩
    exact ⟨_, _, rfl, rfl⟩

/-- C8: save and load called with no path argument use the path given at
construction when one was given; when the loop was constructed without an
explicit autosave path (a temporary autosave path tmp was synthesized),
save() and load() with no argument fail with the configuration error
rather than using the synthesized path; an explicit non-empty path is
always used as given. -/
theorem C8_default_paths (f p tmp : String) (nodes : List VNode) (c : Nat)
    (hf : ¬f = "") (hp : ¬p = "") :
    (∀ vb, VB.init nodes c (some f) tmp = .ok vb →
      vb.filename = some f ∧
      vb.load_filename none = .ok f ∧
      (GoodNames vb.model → ∃ cp, vb.save none = .ok (f, cp))) ∧
    (∀ vb, VB.init nodes c none tmp = .ok vb →
      vb.filename = none ∧ vb.autosave_filename = tmp ∧
      vb.save none = .error .filenameMustBeGiven ∧
      vb.load_filename none = .error .filenameMustBeGiven) ∧
    (∀ selfF, resolveFilename (some p) selfF = .ok p) ∧
    (∀ vb : VB, GoodNames vb.model → ∃ cp, vb.save (some p) = .ok (p, cp)) := by
  have hfF : pyFalsy (some f) = false := by
    simp only [pyFalsy]
    rw [← Bool.not_eq_true]
    intro h
    exact hf ((String.isEmpty_iff f).mp h)
  have hpF : pyFalsy (some p) = false := by
    simp only [pyFalsy]
    rw [← Bool.not_eq_true]
    intro h
    exact hp ((String.isEmpty_iff p).mp h)
  have hfE : f.isEmpty = false := hfF
  have hpE : p.isEmpty = false := hpF
  have hinit : ∀ (fo : Option String) (vb : VB), VB.init nodes c fo tmp = .ok vb →
      vb.filename = (if pyFalsy fo then none else fo) ∧
      vb.autosave_filename = (if pyFalsy fo then tmp else fo.getD "") := by
    intro fo vb h
    have hcond : ¬((unique nodes).map (·.name)).length ≠ (unique nodes).length := by
      simp
    rw [VB.init, if_neg hcond] at h
    cases h
    exact ⟨rfl, rfl⟩
  refine ⟨?_, ?_, ?_, ?_⟩
  · intro vb h
    obtain ⟨h1, _⟩ := hinit (some f) vb h
    rw [hfF] at h1
    simp only [Bool.false_eq_true, if_false] at h1
    refine ⟨h1, ?_, ?_⟩
    · rw [VB.load_filename, h1, resolveFilename]
      simp [pyFalsy, hfE]
    · intro hN
      refine ⟨⟨vb.L, vb.iter, (vb.model.zip vb.l).map fun q => (q.1.name, q.2)⟩, ?_⟩
      rw [VB.save, h1]
      have h2 : vb.model.any (fun n => n.name == "") = false := by
        rw [List.any_eq_false]
        intro n hn
        simpa using hN n hn
      simp [resolveFilename, pyFalsy, hfE, h2]
  · intro vb h
    obtain ⟨h1, h2⟩ := hinit none vb h
    simp only [pyFalsy, if_true] at h1 h2
    refine ⟨h1, h2, ?_, ?_⟩
    · rw [VB.save, h1]
      simp [resolveFilename, pyFalsy]
    · rw [VB.load_filename, h1]
      simp [resolveFilename, pyFalsy]
  · intro selfF
    simp [resolveFilename, pyFalsy, hpE]
  · intro vb hN
    exact ⟨_, save_ok vb p hp hN⟩

/-- Witness for C8: concrete paths and a concrete one-node model. -/
theorem C8_default_paths_witness :
    (¬("a.hdf5" : String) = "" ∧ ¬("b.hdf5" : String) = "") ∧
    ((∀ vb, VB.init [csA] 0 (some "a.hdf5") "t" = .ok vb →
      vb.filename = some "a.hdf5" ∧
      vb.load_filename none = .ok "a.hdf5" ∧
      (GoodNames vb.model → ∃ cp, vb.save none = .ok ("a.hdf5", cp))) ∧
    (∀ vb, VB.init [csA] 0 none "t" = .ok vb →
      vb.filename = none ∧ vb.autosave_filename = "t" ∧
      vb.save none = .error .filenameMustBeGiven ∧
      vb.load_filename none = .error .filenameMustBeGiven) ∧
    (∀ selfF, resolveFilename (some "b.hdf5") selfF = .ok "b.hdf5") ∧
    (∀ vb : VB, GoodNames vb.model → ∃ cp, vb.save (some "b.hdf5") = .ok ("b.hdf5", cp))) :=
  ⟨⟨by decide, by decide⟩,
    C8_default_paths "a.hdf5" "b.hdf5" "t" [csA] 0 (by decide) (by decide)⟩

/-! Failure-path lemmas for the recovery-contract claim. -/

theorem updateRound_error_state (targets : List VNode) (vb v : VB)
    (hlen : vb.l.length = vb.model.length)
    (h : updateRound targets vb = .error v) :
    v.iter = vb.iter ∧ v.L = vb.L ∧ v.model = vb.model ∧
      v.l.length = vb.l.length ∧ (∀ s' ∈ v.l, ∃ s ∈ vb.l, s'.length = s.length) := by
  have hshape := llbGo_fst_shape vb.iter vb.model vb.l 0 hlen.symm
  rw [updateRound] at h
  split at h
  · cases h
    exact ⟨rfl, rfl, rfl, rfl, fun s' hs' => ⟨s', hs', rfl⟩⟩
  · split at h
    next vb1 hllb =>
      have hv1 : vb1 = { vb with l := (llbGo vb.iter 0 vb.model vb.l).1 } := by
        have := congrArg Prod.fst hllb
        simpa [loglikelihood_lowerbound] using this.symm
      cases h
      subst hv1
      exact ⟨rfl, rfl, rfl, hshape.1, hshape.2⟩
    next vb1 Lval hllb =>
      have hv1 : vb1 = { vb with l := (llbGo vb.iter 0 vb.model vb.l).1 } := by
        have := congrArg Prod.fst hllb
        simpa [loglikelihood_lowerbound] using this.symm
      by_cases hcond : 0 < vb1.autosave_iterations ∧
        (vb1.iter + 1) % vb1.autosave_iterations = 0
      · rw [if_pos hcond] at h
        cases hsave : vb1.save (some vb1.autosave_filename) with
        | error e =>
          simp only [hsave] at h
          cases h
          subst hv1
          exact ⟨rfl, rfl, rfl, hshape.1, hshape.2⟩
        | ok out =>
          obtain ⟨fn, cp⟩ := out
          simp only [hsave] at h
          simp at h
      · rw [if_neg hcond] at h
        simp at h

theorem updateRound_ok_state (targets : List VNode) (vb v : VB) (evs : List VEvent)
    (hlen : vb.l.length = vb.model.length)
    (h : updateRound targets vb = .ok (v, evs)) :
    v.iter = vb.iter + 1 ∧ (∃ q : ℚ, v.L = vb.L.set vb.iter (some q)) ∧
      v.model = vb.model ∧ v.autosave_iterations = vb.autosave_iterations ∧
      v.autosave_filename = vb.autosave_filename ∧
      v.l.length = vb.l.length ∧ (∀ s' ∈ v.l, ∃ s ∈ vb.l, s'.length = s.length) := by
  have hshape := llbGo_fst_shape vb.iter vb.model vb.l 0 hlen.symm
  rw [updateRound] at h
  split at h
  · cases h
  · split at h
    next vb1 hllb => cases h
    next vb1 Lval hllb =>
      have hv1 : vb1 = { vb with l := (llbGo vb.iter 0 vb.model vb.l).1 } := by
        have := congrArg Prod.fst hllb
        simpa [loglikelihood_lowerbound] using this.symm
      have hv1iter : vb1.iter = vb.iter := by rw [hv1]
      have hv1L : vb1.L = vb.L := by rw [hv1]
      by_cases hcond : 0 < vb1.autosave_iterations ∧
        (vb1.iter + 1) % vb1.autosave_iterations = 0
      · rw [if_pos hcond] at h
        cases hsave : vb1.save (some vb1.autosave_filename) with
        | error e =>
          simp only [hsave] at h
          simp at h
        | ok out =>
          obtain ⟨fn, cp⟩ := out
          simp only [hsave] at h
          cases h
          refine ⟨by rw [hv1iter], ⟨Lval, by rw [hv1L, hv1iter]⟩, by rw [hv1],
            by rw [hv1], by rw [hv1], ?_, ?_⟩
          · show vb1.l.length = vb.l.length
            rw [hv1]
            exact hshape.1
          · show ∀ s' ∈ vb1.l, ∃ s ∈ vb.l, s'.length = s.length
            rw [hv1]
            exact hshape.2
      · rw [if_neg hcond] at h
        cases h
        refine ⟨by rw [hv1iter], ⟨Lval, by rw [hv1L, hv1iter]⟩, by rw [hv1],
          by rw [hv1], by rw [hv1], ?_, ?_⟩
        · show vb1.l.length = vb.l.length
          rw [hv1]
          exact hshape.1
        · show ∀ s' ∈ vb1.l, ∃ s ∈ vb.l, s'.length = s.length
          rw [hv1]
          exact hshape.2

theorem updateGo_error_spec (targets : List VNode) (k : Nat) :
    ∀ (total : Nat) (vb vf : VB), ReservedTail total vb →
      updateGo targets k vb = .error vf →
      ReservedTail total vf ∧ vb.iter ≤ vf.iter ∧ vf.iter < vb.iter + k := by
  induction k with
  | zero =>
    intro total vb vf _ h
    simp [updateGo] at h
  | succ k ih =>
    intro total vb vf hrt h
    obtain ⟨hLlen, hback, hllen, hslen⟩ := hrt
    rw [updateGo] at h
    split at h
    next v hsc =>
      injection h with hv
      subst hv
      obtain ⟨hiter, hL, hmodel, hlen', hshape⟩ :=
        updateRound_error_state targets vb v (by rw [hllen]) hsc
      refine ⟨⟨by rw [hL, hLlen], ?_, by rw [hlen', hllen, hmodel], ?_⟩, ?_, ?_⟩
      · intro i hi hge
        rw [hL]
        exact hback i hi (by rw [hiter] at hge; omega)
      · intro s' hs'
        obtain ⟨s, hs, he⟩ := hshape s' hs'
        rw [he]
        exact hslen s hs
      · omega
      · omega
    next vb1 e1 hsc =>
      obtain ⟨hiter, ⟨q, hL⟩, hmodel, _, _, hlen', hshape⟩ :=
        updateRound_ok_state targets vb vb1 e1 (by rw [hllen]) hsc
      have hrt1 : ReservedTail total vb1 := by
        refine ⟨by rw [hL, List.length_set, hLlen], ?_, by rw [hlen', hllen, hmodel], ?_⟩
        · intro i hi hge
          rw [hiter] at hge
          rw [hL, getD_set_ne' _ _ _ _ (by omega)]
          exact hback i hi (by omega)
        · intro s' hs'
          obtain ⟨s, hs, he⟩ := hshape s' hs'
          rw [he]
          exact hslen s hs
      split at h
      next v hgo =>
        injection h with hv
        subst hv
        have := ih total vb1 v hrt1 hgo
        exact ⟨this.1, by omega, by omega⟩
      next hgo => cases h

/-- Counterexample to C6 as stated: a one-node model whose
lower_bound_contribution raises in round 1.  After the failing call the
exception has propagated and iter is still 0, but the ledger is NOT
truncated: globalBound has length 1 holding the reserved NaN sentinel,
and so does the per-node series. -/
theorem C6_counterexample :
    isOk (failVB.update [] 1) = false ∧
    (runState (failVB.update [] 1)).iter = 0 ∧
    (runState (failVB.update [] 1)).L = [none] ∧
    (runState (failVB.update [] 1)).l = [[none]] := by
  decide

/-- C6 amended (as the counterexample forces): on a mid-round failure the
exception propagates and iter is not incremented for the failing round,
but the ledger is not truncated back: the global series keeps all rep
reserved slots (its length grows by rep) with every slot from iter on
still sentinel, and every per-node series keeps the same grown length. -/
theorem C6_failure_keeps_reserved_slots (vb : VB) (nodes : List VNode) (k : Nat)
    (vf : VB) (hclean : CleanLedger vb)
    (h : vb.update nodes k = .error vf) :
    vb.iter ≤ vf.iter ∧ vf.iter < vb.iter + k ∧
      vf.L.length = vb.L.length + k ∧
      (∀ i < vf.L.length, vf.iter ≤ i → vf.L.getD i none = none) ∧
      (∀ s ∈ vf.l, s.length = vb.L.length + k) := by
  have h' : updateGo (if nodes.isEmpty then (preExtend vb k).model else nodes) k
      (preExtend vb k) = .error vf := h
  have hrt : ReservedTail (vb.iter + k) (preExtend vb k) := by
    refine ⟨by simp [preExtend, hclean.1], ?_, by simp [preExtend, hclean.2.1], ?_⟩
    · intro i _ hge
      exact getD_append_replicate_none _ _ _ (by rw [hclean.1]; exact hge)
    · intro s' hs'
      simp only [preExtend, List.mem_map] at hs'
      obtain ⟨s, hs, rfl⟩ := hs'
      simp [hclean.2.2.1 s hs]
  obtain ⟨⟨hL, hb, _, hsl⟩, hge, hlt⟩ :=
    updateGo_error_spec _ k (vb.iter + k) (preExtend vb k) vf hrt h'
  refine ⟨hge, hlt, by rw [hL, hclean.1], ?_, ?_⟩
  · intro i hi hge'
    exact hb i (by omega) hge'
  · intro s hs
    rw [hsl s hs, hclean.1]

/-- Witness for the amended C6: the concrete failing run of the
counterexample satisfies the hypotheses and the amended conclusions. -/
theorem C6_failure_keeps_reserved_slots_witness :
    (CleanLedger failVB ∧
      failVB.update [] 1 = .error (runState (failVB.update [] 1))) ∧
    (failVB.iter ≤ (runState (failVB.update [] 1)).iter ∧
      (runState (failVB.update [] 1)).iter < failVB.iter + 1 ∧
      (runState (failVB.update [] 1)).L.length = failVB.L.length + 1 ∧
      (∀ i < (runState (failVB.update [] 1)).L.length,
        (runState (failVB.update [] 1)).iter ≤ i →
        (runState (failVB.update [] 1)).L.getD i none = none) ∧
      (∀ s ∈ (runState (failVB.update [] 1)).l, s.length = failVB.L.length + 1)) :=
  ⟨⟨by decide, rfl⟩,
    C6_failure_keeps_reserved_slots failVB [] 1 (runState (failVB.update [] 1))
      (by decide) rfl⟩

/-! Autosave-trace lemmas. -/

theorem autosavedIters_append (a b : List VEvent) :
    autosavedIters (a ++ b) = autosavedIters a ++ autosavedIters b := by
  simp [autosavedIters]

theorem autosavedIters_progress (vb : VB) :
    autosavedIters (progressEvents vb) = [] := by
  rw [progressEvents]
  by_cases h0 : 0 < vb.iter
  · rw [if_pos h0]
    cases hm : vb.L.getD (vb.iter - 1) none with
    | none => rfl
    | some prev =>
      by_cases h1 : eps_warn < prev - roundBound vb <;>
        by_cases h2 : roundBound vb - prev < eps_conv <;>
          simp [h1, h2, autosavedIters]
  · rw [if_neg h0]
    rfl

theorem autosaved_not_mem_progress (vb : VB) (fn : String) (cp : Checkpoint) :
    VEvent.autosaved fn cp ∉ progressEvents vb := by
  intro h
  have hmem : cp.savedIter ∈ autosavedIters (progressEvents vb) :=
    List.mem_filterMap.mpr ⟨_, h, rfl⟩
  rw [autosavedIters_progress] at hmem
  simp at hmem

theorem autosavedIters_roundEvents (vb : VB) :
    autosavedIters (roundEvents vb) = if autosaveFires vb then [vb.iter] else [] := by
  rw [roundEvents, autosavedIters_append, autosavedIters_progress]
  by_cases h : autosaveFires vb
  · simp [h, autosavedIters, roundCheckpoint]
  · simp [h, autosavedIters]

theorem roundResult_cadence (vb : VB) :
    (roundResult vb).autosave_iterations = vb.autosave_iterations := rfl

theorem autosavedIters_roundsEvents (k : Nat) :
    ∀ vb : VB, autosavedIters (roundsEvents k vb) =
      (List.range' vb.iter k).filter
        (fun r => decide (0 < vb.autosave_iterations ∧
          (r + 1) % vb.autosave_iterations = 0)) := by
  induction k with
  | zero => intro vb; rfl
  | succ k ih =>
    intro vb
    show autosavedIters (roundEvents vb ++ roundsEvents k (roundResult vb)) = _
    rw [autosavedIters_append, autosavedIters_roundEvents, ih (roundResult vb),
      List.range'_succ]
    simp only [roundResult_cadence, roundResult_iter, List.filter_cons]
    by_cases h : 0 < vb.autosave_iterations ∧
      (vb.iter + 1) % vb.autosave_iterations = 0
    · simp [autosaveFires, h]
    · simp [autosaveFires, h]

theorem countP_cadence (c : Nat) (hc : 0 < c) (n : Nat) :
    (List.range n).countP (fun r => decide (0 < c ∧ (r + 1) % c = 0)) = n / c := by
  induction n with
  | zero => simp
  | succ n ih =>
    rw [List.range_succ, List.countP_append, ih, List.countP_cons]
    simp only [List.countP_nil]
    rw [Nat.succ_div]
    by_cases h : c ∣ n + 1
    · have hm : (n + 1) % c = 0 := Nat.mod_eq_zero_of_dvd h
      simp [h, hm, hc]
    · have hm : ¬(n + 1) % c = 0 := fun hmod => h (Nat.dvd_iff_mod_eq_zero.mpr hmod)
      simp [h, hm]

/-- C7: with positive cadence c, an autosave happens in a round exactly
when the 1-based round number is a multiple of c (the trace equation in
terms of a filtered round range); with cadence c, update(repeat=2c) from
a fresh loop autosaves exactly twice, at rounds c and 2c; with cadence 0
no autosave ever happens. -/
theorem C7_autosave_cadence (c : Nat) (vb : VB) (nodes : List VNode) (k : Nat)
    (hclean : CleanLedger vb)
    (hF : NoFailures (if nodes.isEmpty then vb.model else nodes) vb.model
      vb.iter (vb.iter + k))
    (hN : GoodNames vb.model) (hAF : ¬vb.autosave_filename = "")
    (hc : vb.autosave_iterations = c) :
    ∃ vb' evs, vb.update nodes k = .ok (vb', evs) ∧
      autosavedIters evs =
        (List.range' vb.iter k).filter
          (fun r => decide (0 < c ∧ (r + 1) % c = 0)) ∧
      (c = 0 → autosavedIters evs = []) ∧
      (0 < c → vb.iter = 0 → k = 2 * c →
        (autosaveRounds evs).length = 2 ∧
        c ∈ autosaveRounds evs ∧ 2 * c ∈ autosaveRounds evs) := by
  have hupd := update_eq vb nodes k hF hclean.2.1 hN hAF
  have htrace := autosavedIters_roundsEvents k (preExtend vb k)
  have hc' : (preExtend vb k).autosave_iterations = c := hc
  have hi' : (preExtend vb k).iter = vb.iter := rfl
  rw [hc', hi'] at htrace
  refine ⟨_, _, hupd, htrace, ?_, ?_⟩
  · intro hcz
    rw [htrace, hcz]
    simp
  · intro hc0 hi0 hk
    rw [autosaveRounds, htrace, hi0, hk, ← List.range_eq_range']
    refine ⟨?_, ?_, ?_⟩
    · rw [List.length_map, ← List.countP_eq_length_filter, countP_cadence c hc0]
      exact Nat.mul_div_cancel 2 hc0
    · refine List.mem_map.mpr ⟨c - 1, ?_, by omega⟩
      refine List.mem_filter.mpr ⟨List.mem_range.mpr (by omega), ?_⟩
      simp only [decide_eq_true_eq]
      exact ⟨hc0, by rw [show c - 1 + 1 = c from by omega]; exact Nat.mod_self c⟩
    · refine List.mem_map.mpr ⟨2 * c - 1, ?_, by omega⟩
      refine List.mem_filter.mpr ⟨List.mem_range.mpr (by omega), ?_⟩
      simp only [decide_eq_true_eq]
      refine ⟨hc0, ?_⟩
      rw [show 2 * c - 1 + 1 = 2 * c from by omega]
      exact Nat.mod_eq_zero_of_dvd ⟨2, by ring⟩

/-- Witness for C7: cadence 2, a fresh one-node loop, update(repeat=4). -/
theorem C7_autosave_cadence_witness :
    (CleanLedger csVB ∧
      NoFailures (if ([] : List VNode).isEmpty then csVB.model else []) csVB.model
        csVB.iter (csVB.iter + 4) ∧
      GoodNames csVB.model ∧ ¬csVB.autosave_filename = "" ∧
      csVB.autosave_iterations = 2) ∧
    (∃ vb' evs, csVB.update [] 4 = .ok (vb', evs) ∧
      autosavedIters evs =
        (List.range' csVB.iter 4).filter
          (fun r => decide (0 < 2 ∧ (r + 1) % 2 = 0)) ∧
      ((2 : Nat) = 0 → autosavedIters evs = []) ∧
      (0 < 2 → csVB.iter = 0 → 4 = 2 * 2 →
        (autosaveRounds evs).length = 2 ∧
        2 ∈ autosaveRounds evs ∧ 2 * 2 ∈ autosaveRounds evs)) :=
  ⟨⟨by decide, by decide, by decide, by decide, by decide⟩,
    C7_autosave_cadence 2 csVB [] 4 (by decide) (by decide) (by decide)
      (by decide) (by decide)⟩

theorem roundsResult_cadence (k : Nat) :
    ∀ vb : VB, (roundsResult k vb).autosave_iterations = vb.autosave_iterations := by
  induction k with
  | zero => intro vb; rfl
  | succ k ih => intro vb; exact ih (roundResult vb)

theorem mem_roundsEvents (k : Nat) :
    ∀ (vb : VB) (e : VEvent), e ∈ roundsEvents k vb →
      ∃ j < k, e ∈ roundEvents (roundsResult j vb) := by
  induction k with
  | zero => intro vb e h; simp [roundsEvents] at h
  | succ k ih =>
    intro vb e h
    rcases List.mem_append.mp h with h | h
    · exact ⟨0, by omega, h⟩
    · obtain ⟨j, hj, he⟩ := ih (roundResult vb) e h
      exact ⟨j + 1, by omega, he⟩

theorem autosaved_mem_roundEvents (vb : VB) (fn : String) (cp : Checkpoint)
    (h : VEvent.autosaved fn cp ∈ roundEvents vb) :
    autosaveFires vb ∧ fn = vb.autosave_filename ∧ cp = roundCheckpoint vb := by
  rw [roundEvents] at h
  rcases List.mem_append.mp h with h | h
  · exact absurd h (autosaved_not_mem_progress vb fn cp)
  · by_cases hf : autosaveFires vb
    · rw [if_pos hf] at h
      simp at h
      exact ⟨hf, h.1, h.2⟩
    · rw [if_neg hf] at h
      simp at h

/-- C9: the autosave inside a round runs after the bound of that round
has been computed but before the bound is committed and before iter is
incremented: every checkpoint autosaved during a successful update call
records an iteration count r with r + 1 (the 1-based number of the
triggering round) a multiple of the cadence, i.e. the checkpoint of the
autosave of round number m records m - 1; its saved global series still
holds the NaN sentinel at the slot of the triggering round; and in the
final state that same slot holds a committed (non-sentinel) value. -/
theorem C9_autosave_before_commit (vb : VB) (nodes : List VNode) (k : Nat)
    (hclean : CleanLedger vb)
    (hF : NoFailures (if nodes.isEmpty then vb.model else nodes) vb.model
      vb.iter (vb.iter + k))
    (hN : GoodNames vb.model) (hAF : ¬vb.autosave_filename = "") :
    ∃ vb' evs, vb.update nodes k = .ok (vb', evs) ∧
      vb'.iter = vb.iter + k ∧
      ∀ fn cp, VEvent.autosaved fn cp ∈ evs →
        0 < vb.autosave_iterations ∧
        (cp.savedIter + 1) % vb.autosave_iterations = 0 ∧
        vb.iter ≤ cp.savedIter ∧ cp.savedIter < vb.iter + k ∧
        cp.savedL.getD cp.savedIter none = none ∧
        (vb'.L.getD cp.savedIter none).isSome = true := by
  have hupd := update_eq vb nodes k hF hclean.2.1 hN hAF
  have hmid := preExtend_mid vb k hclean
  have hfull := roundsResult_mid k (vb.iter + k) (preExtend vb k) hmid (Nat.le_refl _)
  have hfin : (roundsResult k (preExtend vb k)).iter = vb.iter + k := hfull.2
  have hcl : CleanLedger (roundsResult k (preExtend vb k)) :=
    mid_full_clean _ (by rw [hfin]; exact hfull.1)
  refine ⟨_, _, hupd, hfin, ?_⟩
  intro fn cp hmem
  obtain ⟨j, hj, hje⟩ := mem_roundsEvents k (preExtend vb k) _ hmem
  obtain ⟨hfires, _, hcp⟩ := autosaved_mem_roundEvents _ fn cp hje
  have hstate := roundsResult_mid j (vb.iter + k) (preExtend vb k) hmid (by omega)
  have hsiter : (roundsResult j (preExtend vb k)).iter = vb.iter + j := hstate.2
  have hcad : (roundsResult j (preExtend vb k)).autosave_iterations =
      vb.autosave_iterations := roundsResult_cadence j (preExtend vb k)
  have hsi : cp.savedIter = vb.iter + j := by rw [hcp]; exact hsiter
  have hsL : cp.savedL = (roundsResult j (preExtend vb k)).L := by
    rw [hcp]
    rfl
  obtain ⟨hfc, hfm⟩ := hfires
  rw [hcad] at hfc
  rw [hsiter, hcad] at hfm
  obtain ⟨_, _, _, _, _, hback, _⟩ := hstate.1
  refine ⟨hfc, by rw [hsi]; exact hfm, by omega, by omega, ?_, ?_⟩
  · rw [hsL, hsi]
    exact hback (vb.iter + j) (by omega) (by rw [hsiter])
  · exact hcl.2.2.2.1 cp.savedIter (by rw [hfin]; omega)

/-- Witness for C9: cadence 1, a fresh one-node loop, one round (the
autosave of round 1 records iteration count 0 and a sentinel slot). -/
theorem C9_autosave_before_commit_witness :
    (CleanLedger csVB1 ∧
      NoFailures (if ([] : List VNode).isEmpty then csVB1.model else []) csVB1.model
        csVB1.iter (csVB1.iter + 1) ∧
      GoodNames csVB1.model ∧ ¬csVB1.autosave_filename = "") ∧
    (∃ vb' evs, csVB1.update [] 1 = .ok (vb', evs) ∧
      vb'.iter = csVB1.iter + 1 ∧
      ∀ fn cp, VEvent.autosaved fn cp ∈ evs →
        0 < csVB1.autosave_iterations ∧
        (cp.savedIter + 1) % csVB1.autosave_iterations = 0 ∧
        csVB1.iter ≤ cp.savedIter ∧ cp.savedIter < csVB1.iter + 1 ∧
        cp.savedL.getD cp.savedIter none = none ∧
        (vb'.L.getD cp.savedIter none).isSome = true) :=
  ⟨⟨by decide, by decide, by decide, by decide⟩,
    C9_autosave_before_commit csVB1 [] 1 (by decide) (by decide) (by decide)
      (by decide)⟩

end BayesPy
